import Mathlib

/-!
# UFOScanner: resilient request execution and fan-out aggregation

A shallow embedding of `src/main.go` (package `main`) and the properties of its
backoff calculator, proxy rotator, retrying HTTP client, crt.sh parsing
strategy and enumeration orchestrator.

Conventions of the embedding.

* `time.Duration` and `int` are `Int`; every `time.Duration` operation is
  followed by `wrap64`, the two's-complement reduction to 64 bits.
* A Go `error` is a value of `GoError`; a `(T, error)` result is `Except GoError T`.
* A run-time panic (index out of range) is an explicit constructor of the
  result type.
* Library calls whose code is not part of the repository (`url.Parse`,
  `rand.Intn`, `http.NewRequestWithContext`, the HTTP round trip,
  `json.Unmarshal`, `fmt.Sprintf` on the URL template) are fields of `World`
  and `Net` or explicit function parameters; theorems quantify over them.
  The stand-ins `ctlParse`, `sampleUnmarshal` and `sprintfS` are used in
  closed examples only.
* The goroutines of `Enumerate` are run one after another, in an order that
  is a parameter; what the network answers to each of them is a parameter
  too, so the outcome of every interleaving is covered.
* A Go `map[string]bool` that only ever stores `true` is the list of its
  keys; the unspecified iteration order of `range` over a map, and the order
  in which goroutines reach the aggregation lock, are an `Order` parameter.
-/

namespace UFOScanner

/-! ## Errors -/

/-- Library sentinel errors and error categories that reach this program. -/
inductive ErrKind where
  | contextCanceled
  | deadlineExceeded
  | malformedURL
  | tlsConfig
  | connRefused
  | timeout
  | jsonSyntax
  | jsonType
  | bodyRead
  | invalidMethod
  deriving DecidableEq, Repr

/-- Values of Go's `error` interface that occur in the program. -/
inductive GoError where
  /-- The value of `errors.New(msg)`, and of `fmt.Errorf` with no `%w` verb. -/
  | errorString (msg : String)
  /-- A library sentinel or leaf error, such as `context.Canceled`. -/
  | sentinel (kind : ErrKind)
  /-- A library wrapper such as `*url.Error`; `Unwrap` gives `cause`. -/
  | opError (op : String) (cause : GoError)
  deriving DecidableEq, Repr

/-- The method `Unwrap` of an error, `none` when the error has none. -/
def GoError.Unwrap : GoError → Option GoError
  | .opError _ c => some c
  | _ => none

/-- The function `errors.Is(err, target)`: `target` occurs on the `Unwrap` chain of `err`. -/
def errorsIs : GoError → GoError → Bool
  | .opError op c, t => (GoError.opError op c == t) || errorsIs c t
  | e, t => e == t

/-! ## Configuration structures (`main.go` 24-50) -/

structure ProxyAuth where
  Username : String
  Password : String
  deriving DecidableEq, Repr

structure ProxyConfig where
  URL : String
  Protocol : String
  Auth : Option ProxyAuth
  deriving DecidableEq, Repr

structure RetryStrategy where
  MaxAttempts : Int
  BaseDelay : Int
  MaxDelay : Int
  deriving DecidableEq, Repr

/-- A parsed `*url.URL`, kept as the text it was parsed from. -/
structure URL where
  text : String
  deriving DecidableEq, Repr

/-! ## Machine arithmetic -/

/-- Two's-complement reduction of an integer to a signed 64-bit value. -/
def wrap64 (x : Int) : Int := (x + 2 ^ 63) % 2 ^ 64 - 2 ^ 63

/-- The constant `time.Millisecond`, in nanoseconds. -/
def Millisecond : Int := 1000000

/-- The constant `time.Second`, in nanoseconds. -/
def Second : Int := 1000000000

/-- The conversion `time.Duration(math.Pow(2, float64(attempt)))`.
For `0 ≤ attempt < 63` the power is an exactly representable float and the
conversion is exact. For a negative `attempt` the power lies in `[0, 1)` and
truncates to `0`. For `attempt ≥ 63` the float is out of the `int64` range and
the language leaves the result to the implementation: `ovf attempt`. -/
def powDuration (ovf : Int → Int) (attempt : Int) : Int :=
  if attempt < 0 then 0
  else if attempt < 63 then 2 ^ attempt.toNat
  else wrap64 (ovf attempt)

/-- The result the amd64 conversion instruction gives for a float outside the `int64` range. -/
def amd64Ovf : Int → Int := fun _ => -(2 ^ 63)

/-- The function `calculateBackoff` (`main.go` 143-154); `rnd` is the value
returned by `rand.Intn(1000)`. -/
def calculateBackoff (ovf : Int → Int) (strategy : RetryStrategy) (attempt : Int)
    (rnd : Fin 1000) : Int :=
  let exponentialDelay := wrap64 (strategy.BaseDelay * powDuration ovf attempt)
  let jitter := wrap64 ((rnd.val : Int) * Millisecond)
  let delay := wrap64 (exponentialDelay + jitter)
  if delay > strategy.MaxDelay then strategy.MaxDelay else delay

/-! ## Proxy manager (`main.go` 53-81) -/

structure ProxyManager where
  proxies : List ProxyConfig
  currentIndex : Int
  deriving DecidableEq, Repr

/-- The constructor `NewProxyManager`: `currentIndex` keeps its zero value. -/
def NewProxyManager (proxies : List ProxyConfig) : ProxyManager :=
  { proxies := proxies, currentIndex := 0 }

/-- What one call of `GetNextProxy` gives back. -/
inductive ProxyResult where
  /-- The triple `(proxyURL, proxy.Auth, nil)`. -/
  | ok (proxyURL : URL) (auth : Option ProxyAuth)
  /-- The triple `(nil, nil, err)`. -/
  | err (e : GoError)
  /-- The run-time panic of `pm.proxies[pm.currentIndex]` out of range. -/
  | indexPanic
  deriving DecidableEq, Repr

/-- The method `GetNextProxy` (`main.go` 65-81), run under the mutex: the
result and the manager after the call. `urlParse` is `url.Parse`. -/
def ProxyManager.GetNextProxy (urlParse : String → Except GoError URL)
    (pm : ProxyManager) : ProxyResult × ProxyManager :=
  if pm.proxies.length = 0 then
    (.err (.errorString "no proxies available"), pm)
  else if pm.currentIndex < 0 ∨ (pm.proxies.length : Int) ≤ pm.currentIndex then
    (.indexPanic, pm)
  else
    match pm.proxies[pm.currentIndex.toNat]? with
    | none => (.indexPanic, pm)
    | some proxy =>
      match urlParse proxy.URL with
      | .error e => (.err e, pm)
      | .ok proxyURL =>
        (.ok proxyURL proxy.Auth,
          { pm with currentIndex := Int.tmod (pm.currentIndex + 1) pm.proxies.length })

/-- The results of `n` consecutive serialized `GetNextProxy` calls, and the manager after them. -/
def ProxyManager.calls (urlParse : String → Except GoError URL) :
    Nat → ProxyManager → List ProxyResult × ProxyManager
  | 0, pm => ([], pm)
  | n + 1, pm =>
    let r := pm.GetNextProxy urlParse
    let rest := ProxyManager.calls urlParse n r.2
    (r.1 :: rest.1, rest.2)

/-- The rotator invariant: with a non-empty pool the cursor is a valid index. -/
def ProxyManager.Inv (pm : ProxyManager) : Prop :=
  pm.proxies = [] ∨ (0 ≤ pm.currentIndex ∧ pm.currentIndex < pm.proxies.length)

instance (pm : ProxyManager) : Decidable pm.Inv := by
  unfold ProxyManager.Inv; infer_instance

/-- The endpoint a successful call hands out for pool entry `p`. -/
def endpointOf (urlParse : String → Except GoError URL) (p : ProxyConfig) : ProxyResult :=
  match urlParse p.URL with
  | .error e => .err e
  | .ok u => .ok u p.Auth

/-- A `url.Parse` stand-in that knows one rule of the library: a URL holding
an ASCII control character is rejected; every other text is accepted. -/
def ctlParse (s : String) : Except GoError URL :=
  if s.data.any (fun c => c.val < 32 ∨ c.val = 127) then
    .error (.opError "parse" (.sentinel .malformedURL))
  else .ok ⟨s⟩

/-! ## Resilient HTTP client (`main.go` 84-169) -/

/-- The part of a `*http.Request` the program touches. -/
structure Request where
  Method : String
  URL : String
  Header : List (String × String)
  /-- The credentials installed by `SetBasicAuth`, if any. -/
  BasicAuth : Option ProxyAuth
  deriving DecidableEq, Repr

/-- The part of a `*http.Response` the program touches: `Body` and `BodyErr`
are the two values `io.ReadAll(resp.Body)` returns. -/
structure Response where
  StatusCode : Int
  Body : List UInt8
  BodyErr : Option GoError
  deriving DecidableEq, Repr

/-- What the outside world contributes to one `Do` call: the value of the
`rand.Intn(1000)` call of each attempt and the outcome of each
`c.client.Do(req)`, given the zero-based attempt index, the request as sent
and the proxy in effect. -/
structure Net where
  intn : Nat → Fin 1000
  roundTrip : Nat → Request → Option URL → Except GoError Response

/-- The client of `main.go` 84-88. `Proxy` is the `Proxy` field of the
client's transport. `slept` and `sent` record the `time.Sleep` arguments and
the requests handed to `c.client.Do`, oldest first; `logger` records the
arguments of each `Printf`. -/
structure ResilientHTTPClient where
  proxyManager : Option ProxyManager
  Proxy : Option URL
  logger : List (Int × GoError)
  slept : List Int
  sent : List (Request × Option URL)
  deriving DecidableEq, Repr

/-- The constructor `NewResilientHTTPClient` (`main.go` 90-103). -/
def NewResilientHTTPClient (proxyManager : Option ProxyManager) : ResilientHTTPClient :=
  { proxyManager := proxyManager, Proxy := none, logger := [], slept := [], sent := [] }

/-- The slice `unrecoverableErrors` of `isUnrecoverableError`: it has no elements. -/
def unrecoverableErrors : List GoError := []

/-- The function `isUnrecoverableError` (`main.go` 157-169). -/
def isUnrecoverableError (err : GoError) : Bool :=
  unrecoverableErrors.any (fun uErr => errorsIs err uErr)

/-- What `Do` gives back. -/
inductive DoResult where
  /-- The pair `(resp, nil)`. -/
  | resp (r : Response)
  /-- The pair `(nil, err)`. -/
  | err (e : GoError)
  /-- A run-time panic inside the call. -/
  | panicked
  deriving DecidableEq, Repr

/-- The error built at `main.go` 139. -/
def retriesExhausted (strategy : RetryStrategy) : GoError :=
  .errorString ("request failed after " ++ toString strategy.MaxAttempts ++ " attempts")

/-- The proxy-rotation block of `Do` (`main.go` 112-122): `none` on a panic. -/
def rotateProxy (urlParse : String → Except GoError URL) (c : ResilientHTTPClient)
    (req : Request) : Option (ResilientHTTPClient × Request) :=
  match c.proxyManager with
  | none => some (c, req)
  | some pm =>
    match pm.GetNextProxy urlParse with
    | (.indexPanic, _) => none
    | (.err _, pm1) => some ({ c with proxyManager := some pm1 }, req)
    | (.ok proxyURL proxyAuth, pm1) =>
      let c1 := { c with proxyManager := some pm1, Proxy := some proxyURL }
      match proxyAuth with
      | some a => some (c1, { req with BasicAuth := some a })
      | none => some (c1, req)

/-- The loop of `Do` (`main.go` 106-139) with `remaining` iterations left,
the next one having index `attempt`. -/
def DoLoop (urlParse : String → Except GoError URL) (ovf : Int → Int) (net : Net)
    (strategy : RetryStrategy) :
    (remaining : Nat) → (attempt : Nat) → ResilientHTTPClient → Request →
      DoResult × ResilientHTTPClient
  | 0, _, c, _ => (.err (retriesExhausted strategy), c)
  | remaining + 1, attempt, c, req =>
    let delay := calculateBackoff ovf strategy attempt (net.intn attempt)
    let c0 := { c with slept := c.slept ++ [delay] }
    match rotateProxy urlParse c0 req with
    | none => (.panicked, c0)
    | some (c1, req1) =>
      let c2 := { c1 with sent := c1.sent ++ [(req1, c1.Proxy)] }
      match net.roundTrip attempt req1 c1.Proxy with
      | .ok resp => (.resp resp, c2)
      | .error err =>
        let c3 := { c2 with logger := c2.logger ++ [((attempt : Int) + 1, err)] }
        if isUnrecoverableError err then (.err err, c3)
        else DoLoop urlParse ovf net strategy remaining (attempt + 1) c3 req1

/-- The method `Do` (`main.go` 105-140): the loop runs for
`attempt = 0, ..., MaxAttempts - 1`, not at all when `MaxAttempts ≤ 0`. -/
def ResilientHTTPClient.Do (urlParse : String → Except GoError URL) (ovf : Int → Int)
    (net : Net) (c : ResilientHTTPClient) (req : Request) (strategy : RetryStrategy) :
    DoResult × ResilientHTTPClient :=
  DoLoop urlParse ovf net strategy strategy.MaxAttempts.toNat 0 c req

/-- A transport on which every attempt fails with error `e`. -/
def failingNet (e : GoError) : Net :=
  { intn := fun _ => 0, roundTrip := fun _ _ _ => .error e }

/-- The error `http.Client.Do` reports when the request context is cancelled. -/
def canceledErr : GoError := .opError "Get" (.sentinel .contextCanceled)

/-- The error `http.Client.Do` reports when the connection is refused. -/
def refusedErr : GoError := .opError "Get" (.sentinel .connRefused)

/-- The error `http.Client.Do` reports when the connection times out. -/
def timeoutErr : GoError := .opError "Get" (.sentinel .timeout)

/-- The retry policy of the registered source (`main.go` 182-186). -/
def crtShRetry : RetryStrategy :=
  { MaxAttempts := 3, BaseDelay := 1 * Second, MaxDelay := 30 * Second }

/-- A request for the examples. -/
def sampleRequest : Request :=
  { Method := "GET", URL := "https://crt.sh/?q=%25.example.com&output=json",
    Header := [], BasicAuth := none }

/-! ## Sets of strings and orders -/

/-- An order in which a collection is traversed: the unspecified iteration
order of `range` over a Go map, or the order in which goroutines reach a
lock. It rearranges the elements and neither drops nor repeats any. -/
structure Order (α : Type) where
  apply : List α → List α
  perm : ∀ l, (apply l).Perm l

/-- The order that leaves every list as it is. -/
def Order.id (α : Type) : Order α := ⟨fun l => l, fun _ => List.Perm.refl _⟩

/-- The order that traverses every list backwards. -/
def Order.rev (α : Type) : Order α := ⟨List.reverse, fun l => List.reverse_perm l⟩

/-- The assignment `m[key] = true` on a `map[string]bool` kept as its key list. -/
def addKey (m : List String) (key : String) : List String :=
  if key ∈ m then m else m ++ [key]

/-- The loop `for _, subdomain := range subdomains { results[subdomain] = true }`. -/
def mergeInto (results : List String) (subdomains : List String) : List String :=
  subdomains.foldl addKey results

/-- The loop that copies the keys of a map into a slice, in iteration order. -/
def keysToSlice (o : Order String) (m : List String) : List String :=
  o.apply m

/-! ## Parsing strategy (`main.go` 292-311) -/

/-- A decoded `map[string]string`. -/
abbrev Record := List (String × String)

/-- The function `parseCrtShResponse`; `unmarshal` is `json.Unmarshal` into a
`[]map[string]string`. -/
def parseCrtShResponse (unmarshal : List UInt8 → Except GoError (List Record))
    (o : Order String) (body : List UInt8) : Except GoError (List String) :=
  match unmarshal body with
  | .error err => .error err
  | .ok results =>
    let subdomains := results.foldl
      (fun m result =>
        match result.lookup "common_name" with
        | some commonName => addKey m commonName
        | none => m) []
    .ok (keysToSlice o subdomains)

/-- The proxy pool configured in `main` (`main.go` 315-328). -/
def mainPool : List ProxyConfig :=
  [ { URL := "http://proxy1.example.com:8080", Protocol := "http",
      Auth := some { Username := "user", Password := "pass" } },
    { URL := "http://proxy2.example.com:8080", Protocol := "http", Auth := none } ]

/-- A pool whose second endpoint has a URL that `url.Parse` rejects (it holds
the control character DEL). -/
def brokenPool : List ProxyConfig :=
  [ { URL := "http://proxy1.example.com:8080", Protocol := "http",
      Auth := some { Username := "user", Password := "pass" } },
    { URL := "http://proxy2.example.com\x7f:8080", Protocol := "http", Auth := none } ]

/-- Round-robin service of a pool by a fresh manager: for every `i` from `0`
to the pool size, call number `i` (counted from zero) of a run of serialized
`GetNextProxy` calls returns the parsed URL and the credentials of pool entry
`i mod N`. For `i < N` these are the endpoints in pool order, each once; call
`N` returns the first endpoint again. -/
def RoundRobin (urlParse : String → Except GoError URL) (pool : List ProxyConfig) : Prop :=
  ∀ i, i ≤ pool.length →
    ∃ p u, pool[i % pool.length]? = some p ∧ urlParse p.URL = .ok u ∧
      (ProxyManager.calls urlParse (pool.length + 1) (NewProxyManager pool)).1[i]?
        = some (.ok u p.Auth)

/-! ## Source registry and enumerator (`main.go` 172-289) -/

structure SourceConfig where
  Name : String
  URL : String
  Method : String
  Headers : List (String × String)
  RateLimit : Int
  Timeout : Int
  RetryStrategy : RetryStrategy
  ParsingStrategy : List UInt8 → Except GoError (List String)

/-- The initial value of the package variable `SourceConfigurations`
(`main.go` 172-190); the `%%` of the Go literal is kept. -/
def SourceConfigurations (unmarshal : List UInt8 → Except GoError (List Record))
    (o : Order String) : List SourceConfig :=
  [ { Name := "CrtSh",
      URL := "https://crt.sh/?q=%%25.%s&output=json",
      Method := "GET",
      Headers := [("User-Agent", "Mozilla/5.0 (Advanced Recon Tool)")],
      RateLimit := 2 * Second,
      Timeout := 10 * Second,
      RetryStrategy := crtShRetry,
      ParsingStrategy := parseCrtShResponse unmarshal o } ]

/-- The library calls and the network behind `Enumerate`. The goroutine
started for the source at position `i` of the source list draws its jitter
and its round-trip outcomes from `net i`. -/
structure World where
  urlParse : String → Except GoError URL
  ovf : Int → Int
  /-- The call `fmt.Sprintf(format, domain)`. -/
  sprintf : String → String → String
  /-- The call `http.NewRequestWithContext(ctx, method, url, nil)`. -/
  newRequest : String → String → Except GoError Request
  net : Nat → Net

/-- The enumerator of `main.go` 193-200. `results` is the key list of the
map; `errorHandling` lists the errors sent on the channel so far, oldest first. -/
structure SubdomainEnumerator where
  sources : List SourceConfig
  proxyManager : ProxyManager
  results : List String
  errorHandling : List GoError

/-- The constructor `NewSubdomainEnumerator` (`main.go` 202-210);
`sourceConfigurations` is the value of the package variable it reads. -/
def NewSubdomainEnumerator (sourceConfigurations : List SourceConfig)
    (proxies : List ProxyConfig) : SubdomainEnumerator :=
  { sources := sourceConfigurations,
    proxyManager := NewProxyManager proxies,
    results := [],
    errorHandling := [] }

/-- The call `req.Header.Set(key, value)`, without the canonical spelling of the key. -/
def Request.setHeader (req : Request) (key value : String) : Request :=
  { req with Header := req.Header.filter (fun kv => kv.1 ≠ key) ++ [(key, value)] }

/-- What `fetchSubdomainsFromSource` gives back. -/
inductive FetchResult where
  /-- The pair `(subdomains, nil)`. -/
  | ok (subdomains : List String)
  /-- The pair `(nil, err)`. -/
  | err (e : GoError)
  /-- A run-time panic inside the call. -/
  | panicked
  deriving DecidableEq, Repr

/-- The subdomains a fetch discovered: none unless it succeeded. -/
def FetchResult.subdomains : FetchResult → List String
  | .ok l => l
  | _ => []

/-- The error a fetch failed with, if it failed. -/
def FetchResult.error? : FetchResult → Option GoError
  | .err e => some e
  | _ => none

/-- The method `fetchSubdomainsFromSource` (`main.go` 259-289), run by the
goroutine `task`. -/
def fetchSubdomainsFromSource (w : World) (task : Nat) (client : ResilientHTTPClient)
    (domain : String) (config : SourceConfig) : FetchResult × ResilientHTTPClient :=
  let url := w.sprintf config.URL domain
  match w.newRequest config.Method url with
  | .error err => (.err err, client)
  | .ok req0 =>
    let req := config.Headers.foldl (fun r kv => r.setHeader kv.1 kv.2) req0
    match client.Do w.urlParse w.ovf (w.net task) req config.RetryStrategy with
    | (.panicked, c) => (.panicked, c)
    | (.err err, c) => (.err err, c)
    | (.resp resp, c) =>
      match resp.BodyErr with
      | some err => (.err err, c)
      | none =>
        match config.ParsingStrategy resp.Body with
        | .error err => (.err err, c)
        | .ok subdomains => (.ok subdomains, c)

/-- The state the goroutines of one `Enumerate` call share: the HTTP client,
the result map and the error channel of the enumerator, and the values the
functions passed to `group.Go` have returned so far. -/
structure GroupState where
  client : ResilientHTTPClient
  results : List String
  errorHandling : List GoError
  returned : List (Option GoError)

/-- The function passed to `group.Go` (`main.go` 222-236); `none` on a panic. -/
def runTask (w : World) (domain : String) (g : GroupState) (t : Nat × SourceConfig) :
    Option GroupState :=
  match fetchSubdomainsFromSource w t.1 g.client domain t.2 with
  | (.panicked, _) => none
  | (.err err, c) =>
    some { g with client := c, errorHandling := g.errorHandling ++ [err],
                  returned := g.returned ++ [none] }
  | (.ok subdomains, c) =>
    some { g with client := c, results := mergeInto g.results subdomains,
                  returned := g.returned ++ [none] }

/-- The goroutines of the group, run one after another in the given order. -/
def runTasks (w : World) (domain : String) :
    List (Nat × SourceConfig) → GroupState → Option GroupState
  | [], g => some g
  | t :: ts, g =>
    match runTask w domain g t with
    | none => none
    | some g1 => runTasks w domain ts g1

/-- The call `group.Wait()`: the first non-nil error a group function returned. -/
def groupWait : List (Option GoError) → Option GoError
  | [] => none
  | some err :: _ => some err
  | none :: rest => groupWait rest

/-- What `Enumerate` gives back. -/
inductive EnumResult where
  /-- The pair `(uniqueSubdomains, nil)`. -/
  | ok (uniqueSubdomains : List String)
  /-- The pair `(nil, err)`. -/
  | err (e : GoError)
  /-- A run-time panic inside the call. -/
  | panicked
  deriving DecidableEq, Repr

/-- The method `Enumerate` (`main.go` 212-257): the result and the enumerator
after the call. `sched` is the order in which the goroutines run, `o` the
iteration order of the final `range` over the result map. -/
def SubdomainEnumerator.Enumerate (w : World) (sched : Order (Nat × SourceConfig))
    (o : Order String) (e : SubdomainEnumerator) (domain : String) :
    EnumResult × SubdomainEnumerator :=
  let httpClient := NewResilientHTTPClient (some e.proxyManager)
  match runTasks w domain (sched.apply e.sources.enum)
      { client := httpClient, results := e.results, errorHandling := e.errorHandling,
        returned := [] } with
  | none => (.panicked, e)
  | some g =>
    let e1 : SubdomainEnumerator :=
      { e with proxyManager := g.client.proxyManager.getD e.proxyManager,
               results := g.results, errorHandling := g.errorHandling }
    match groupWait g.returned with
    | some err => (.err err, e1)
    | none => (.ok (keysToSlice o e1.results), e1)

/-- The results of the fetches of the goroutines, in the order they run. -/
def fetchAll (w : World) (domain : String) :
    List (Nat × SourceConfig) → ResilientHTTPClient → List FetchResult
  | [], _ => []
  | t :: ts, c =>
    let r := fetchSubdomainsFromSource w t.1 c domain t.2
    r.1 :: fetchAll w domain ts r.2

/-- The fetch results of one `Enumerate` call, one per source. -/
def SubdomainEnumerator.outcomes (w : World) (sched : Order (Nat × SourceConfig))
    (e : SubdomainEnumerator) (domain : String) : List FetchResult :=
  fetchAll w domain (sched.apply e.sources.enum) (NewResilientHTTPClient (some e.proxyManager))

/-- The bytes of an ASCII text. -/
def asciiBytes (s : String) : List UInt8 :=
  s.data.map (fun c => UInt8.ofNat c.toNat)

/-- The fragment of `fmt.Sprintf` for one string argument and a format whose
verbs are `%%` and `%s`. -/
def sprintfS : List Char → String → List Char
  | [], _ => []
  | [c], _ => [c]
  | c :: d :: rest, arg =>
    if c = '%' ∧ d = '%' then '%' :: sprintfS rest arg
    else if c = '%' ∧ d = 's' then arg.data ++ sprintfS rest arg
    else c :: sprintfS (d :: rest) arg

/-- A `json.Unmarshal` stand-in that knows the decoding of three bodies: the
empty array, the array of one record naming a.example.com and the array of
one record naming b.example.com. Every other body is reported as a syntax error. -/
def sampleUnmarshal (body : List UInt8) : Except GoError (List Record) :=
  if body = asciiBytes "[]" then .ok []
  else if body = asciiBytes "[\x7b\"common_name\":\"a.example.com\"\x7d]" then
    .ok [[("common_name", "a.example.com")]]
  else if body = asciiBytes "[\x7b\"common_name\":\"b.example.com\"\x7d]" then
    .ok [[("common_name", "b.example.com")]]
  else .error (.sentinel .jsonSyntax)

/-- A transport on which every request is answered with status 200 and the given body. -/
def answeringNet (body : List UInt8) : Net :=
  { intn := fun _ => 0,
    roundTrip := fun _ _ _ => .ok { StatusCode := 200, Body := body, BodyErr := none } }

/-- A world in which every request can be built and goroutine `i` meets the transport `net i`. -/
def sampleWorld (net : Nat → Net) : World :=
  { urlParse := ctlParse,
    ovf := amd64Ovf,
    sprintf := fun format arg => String.mk (sprintfS format.data arg),
    newRequest := fun method url =>
      .ok { Method := method, URL := url, Header := [], BasicAuth := none },
    net := net }

/-- The enumerator `main` builds (`main.go` 331). -/
def mainEnumerator : SubdomainEnumerator :=
  NewSubdomainEnumerator (SourceConfigurations sampleUnmarshal (Order.id String)) mainPool

/-- The client invariant: its proxy manager, if it has one, satisfies the rotator invariant. -/
def ResilientHTTPClient.Inv (c : ResilientHTTPClient) : Prop :=
  ∀ pm, c.proxyManager = some pm → pm.Inv

/-- A client as `NewSubdomainEnumerator` followed by `Enumerate` sets it up for the pool of `main`. -/
def mainClient : ResilientHTTPClient :=
  NewResilientHTTPClient (some (NewProxyManager mainPool))

/-- The body of a crt.sh answer with one record, naming a.example.com. -/
def bodyA : List UInt8 := asciiBytes "[\x7b\"common_name\":\"a.example.com\"\x7d]"

/-- The body of a crt.sh answer with one record, naming b.example.com. -/
def bodyB : List UInt8 := asciiBytes "[\x7b\"common_name\":\"b.example.com\"\x7d]"

/-- The world of a first call: the source answers with `bodyA`. -/
def worldA : World := sampleWorld (fun _ => answeringNet bodyA)

/-- The world of a second call: the source answers with `bodyB`. -/
def worldB : World := sampleWorld (fun _ => answeringNet bodyB)

/-- A world for two sources: the first fails on every attempt, the second answers with `bodyA`. -/
def worldFailThenA : World :=
  sampleWorld (fun i => if i = 0 then failingNet refusedErr else answeringNet bodyA)

/-- Two registered sources of the crt.sh kind. -/
def twoSources : List SourceConfig :=
  SourceConfigurations sampleUnmarshal (Order.id String)
    ++ SourceConfigurations sampleUnmarshal (Order.id String)

/-! # Theorems -/

/-! ## Backoff calculator -/

theorem wrap64_of_range (x : Int) (h0 : -(2 ^ 63) ≤ x) (h1 : x < 2 ^ 63) : wrap64 x = x := by
  unfold wrap64; omega

theorem wrap64_lower (x : Int) : -(2 ^ 63) ≤ wrap64 x := by
  unfold wrap64; omega

theorem wrap64_upper (x : Int) : wrap64 x < 2 ^ 63 := by
  unfold wrap64; omega

/-- The delay never exceeds the configured cap, whatever the inputs. -/
theorem calculateBackoff_le_max (ovf : Int → Int) (strategy : RetryStrategy) (attempt : Int)
    (rnd : Fin 1000) : calculateBackoff ovf strategy attempt rnd ≤ strategy.MaxDelay := by
  unfold calculateBackoff
  simp only
  split
  · exact le_refl _
  · omega

/-- While `BaseDelay * 2 ^ attempt` plus the largest jitter fits in 64 bits,
the delay lies between zero and the cap. -/
theorem calculateBackoff_bounds_of_no_overflow (ovf : Int → Int) (strategy : RetryStrategy)
    (attempt : Nat) (rnd : Fin 1000)
    (hb : 0 ≤ strategy.BaseDelay) (hm : strategy.BaseDelay ≤ strategy.MaxDelay)
    (ha : attempt < 63)
    (hfit : strategy.BaseDelay * 2 ^ attempt + 999 * Millisecond < 2 ^ 63) :
    0 ≤ calculateBackoff ovf strategy attempt rnd ∧
      calculateBackoff ovf strategy attempt rnd ≤ strategy.MaxDelay := by
  refine ⟨?_, calculateBackoff_le_max ovf strategy attempt rnd⟩
  have hp : powDuration ovf (attempt : Int) = 2 ^ attempt := by
    unfold powDuration
    have h1 : ¬ ((attempt : Int) < 0) := by omega
    have h2 : (attempt : Int) < 63 := by omega
    simp [h1, h2]
  have hpos : (0 : Int) ≤ strategy.BaseDelay * 2 ^ attempt :=
    mul_nonneg hb (pow_nonneg (by norm_num) _)
  have hr : (rnd.val : Int) < 1000 := by exact_mod_cast rnd.isLt
  have hr0 : (0 : Int) ≤ (rnd.val : Int) := Int.natCast_nonneg _
  unfold Millisecond at hfit
  have e1 : wrap64 (strategy.BaseDelay * 2 ^ attempt) = strategy.BaseDelay * 2 ^ attempt :=
    wrap64_of_range _ (by omega) (by omega)
  have e2 : wrap64 ((rnd.val : Int) * Millisecond) = (rnd.val : Int) * 1000000 := by
    unfold Millisecond
    exact wrap64_of_range _ (by omega) (by omega)
  have e3 : wrap64 (strategy.BaseDelay * 2 ^ attempt + (rnd.val : Int) * 1000000)
      = strategy.BaseDelay * 2 ^ attempt + (rnd.val : Int) * 1000000 :=
    wrap64_of_range _ (by omega) (by omega)
  unfold calculateBackoff
  simp only [hp, e1, e2, e3]
  split <;> omega

/-- C1: with the registered policy (base delay 1 s, cap 30 s, so
`0 ≤ BaseDelay ≤ MaxDelay`) and attempt index 34, `calculateBackoff` returns a
negative duration for every jitter: `10^9 * 2^34` does not fit in 64 bits and
wraps to `-1266874889709551616`. -/
theorem calculateBackoff_negative_at_attempt_34 (ovf : Int → Int) (rnd : Fin 1000) :
    0 ≤ crtShRetry.BaseDelay ∧ crtShRetry.BaseDelay ≤ crtShRetry.MaxDelay ∧
      calculateBackoff ovf crtShRetry 34 rnd
        = -1266874889709551616 + (rnd.val : Int) * 1000000 ∧
      calculateBackoff ovf crtShRetry 34 rnd < 0 := by
  have hr : (rnd.val : Int) < 1000 := by exact_mod_cast rnd.isLt
  have hr0 : (0 : Int) ≤ (rnd.val : Int) := Int.natCast_nonneg _
  have hp : powDuration ovf 34 = 17179869184 := by
    have h : Int.toNat 34 = 34 := rfl
    unfold powDuration; rw [h]; norm_num
  have e1 : wrap64 (1 * 1000000000 * 17179869184) = -1266874889709551616 := by
    unfold wrap64; norm_num
  have e2 : wrap64 ((rnd.val : Int) * 1000000) = (rnd.val : Int) * 1000000 :=
    wrap64_of_range _ (by omega) (by omega)
  have e3 : wrap64 (-1266874889709551616 + (rnd.val : Int) * 1000000)
      = -1266874889709551616 + (rnd.val : Int) * 1000000 :=
    wrap64_of_range _ (by omega) (by omega)
  have key : calculateBackoff ovf crtShRetry 34 rnd
      = -1266874889709551616 + (rnd.val : Int) * 1000000 := by
    unfold calculateBackoff crtShRetry Second Millisecond
    simp only [hp, e1, e2, e3]
    split <;> omega
  refine ⟨by decide, by decide, key, ?_⟩
  rw [key]; omega

/-! ## Proxy rotator -/

theorem GetNextProxy_empty (urlParse : String → Except GoError URL) (idx : Int) :
    ProxyManager.GetNextProxy urlParse ⟨[], idx⟩
      = (.err (.errorString "no proxies available"), ⟨[], idx⟩) := by
  simp [ProxyManager.GetNextProxy]

theorem GetNextProxy_ok (urlParse : String → Except GoError URL) (pool : List ProxyConfig)
    (i : Nat) (p : ProxyConfig) (u : URL) (hp : pool[i]? = some p)
    (hu : urlParse p.URL = .ok u) :
    ProxyManager.GetNextProxy urlParse ⟨pool, (i : Int)⟩
      = (.ok u p.Auth, ⟨pool, (((i + 1) % pool.length : Nat) : Int)⟩) := by
  have hlt : i < pool.length := by
    rcases List.getElem?_eq_some.1 hp with ⟨h, _⟩
    exact h
  have h0 : ¬ (pool.length = 0) := by omega
  have h1 : ¬ ((i : Int) < 0 ∨ (pool.length : Int) ≤ (i : Int)) := by omega
  have h2 : ((i : Int)).toNat = i := Int.toNat_natCast i
  have h3 : Int.tmod ((i : Int) + 1) (pool.length : Int)
      = (((i + 1) % pool.length : Nat) : Int) := by
    rw [Int.ofNat_tmod]; rfl
  unfold ProxyManager.GetNextProxy
  simp only [h0, h1, h2, hp, hu, h3, if_false]

theorem GetNextProxy_parse_error (urlParse : String → Except GoError URL)
    (pool : List ProxyConfig) (i : Nat) (p : ProxyConfig) (e : GoError)
    (hp : pool[i]? = some p) (hu : urlParse p.URL = .error e) :
    ProxyManager.GetNextProxy urlParse ⟨pool, (i : Int)⟩ = (.err e, ⟨pool, (i : Int)⟩) := by
  have hlt : i < pool.length := by
    rcases List.getElem?_eq_some.1 hp with ⟨h, _⟩
    exact h
  have h0 : ¬ (pool.length = 0) := by omega
  have h1 : ¬ ((i : Int) < 0 ∨ (pool.length : Int) ≤ (i : Int)) := by omega
  have h2 : ((i : Int)).toNat = i := Int.toNat_natCast i
  unfold ProxyManager.GetNextProxy
  simp only [h0, h1, h2, hp, hu, if_false]

/-- The constructor establishes the rotator invariant. -/
theorem NewProxyManager_inv (pool : List ProxyConfig) : (NewProxyManager pool).Inv := by
  unfold ProxyManager.Inv NewProxyManager
  cases pool with
  | nil => exact Or.inl rfl
  | cons p ps => right; simp

/-- Under the invariant a call does not panic, keeps the pool and keeps the invariant. -/
theorem GetNextProxy_inv (urlParse : String → Except GoError URL) (pm : ProxyManager)
    (h : pm.Inv) :
    (pm.GetNextProxy urlParse).1 ≠ .indexPanic ∧ (pm.GetNextProxy urlParse).2.Inv ∧
      (pm.GetNextProxy urlParse).2.proxies = pm.proxies := by
  obtain ⟨pool, idx⟩ := pm
  rcases h with h | ⟨h0, h1⟩
  · simp only at h
    subst h
    rw [GetNextProxy_empty]
    exact ⟨by simp, Or.inl rfl, rfl⟩
  · simp only at h0 h1
    obtain ⟨i, rfl⟩ := Int.eq_ofNat_of_zero_le h0
    have hlt : i < pool.length := by omega
    have hp : pool[i]? = some pool[i] := List.getElem?_eq_getElem hlt
    cases hu : urlParse pool[i].URL with
    | error e =>
      rw [GetNextProxy_parse_error urlParse pool i _ e hp hu]
      refine ⟨by simp, Or.inr ⟨?_, ?_⟩, rfl⟩ <;> simp only <;> omega
    | ok u =>
      rw [GetNextProxy_ok urlParse pool i _ u hp hu]
      have hm : (i + 1) % pool.length < pool.length := Nat.mod_lt _ (by omega)
      refine ⟨by simp, Or.inr ⟨?_, ?_⟩, rfl⟩ <;> simp only <;> omega

/-- With every URL of the pool parsable, call `j` of a run started at cursor
`i` returns the endpoint of entry `(i + j) mod N`. -/
theorem calls_getElem (urlParse : String → Except GoError URL) (pool : List ProxyConfig)
    (hp : ∀ p ∈ pool, ∃ u, urlParse p.URL = .ok u) :
    ∀ (n i j : Nat), i < pool.length → j < n →
      ∃ p u, pool[(i + j) % pool.length]? = some p ∧ urlParse p.URL = .ok u ∧
        (ProxyManager.calls urlParse n ⟨pool, (i : Int)⟩).1[j]? = some (.ok u p.Auth) := by
  intro n
  induction n with
  | zero => intro i j _ hj; omega
  | succ n ih =>
    intro i j hi hj
    have hpi : pool[i]? = some pool[i] := List.getElem?_eq_getElem hi
    obtain ⟨u, hu⟩ := hp pool[i] (List.getElem_mem hi)
    have hstep := GetNextProxy_ok urlParse pool i _ u hpi hu
    cases j with
    | zero =>
      refine ⟨pool[i], u, ?_, hu, ?_⟩
      · rw [Nat.add_zero, Nat.mod_eq_of_lt hi]; exact hpi
      · simp [ProxyManager.calls, hstep]
    | succ j =>
      have hm : (i + 1) % pool.length < pool.length := Nat.mod_lt _ (by omega)
      obtain ⟨p, v, h1, h2, h3⟩ := ih ((i + 1) % pool.length) j hm (by omega)
      refine ⟨p, v, ?_, h2, ?_⟩
      · rw [← h1]; congr 1
        rw [Nat.mod_add_mod]; congr 1; omega
      · simp only [ProxyManager.calls, hstep, List.getElem?_cons_succ]
        exact h3

/-- C2 (amended): for every pool of `N ≥ 1` endpoints whose URLs all parse, the
first `N` serialized `GetNextProxy` calls on the manager built by
`NewProxyManager` return the endpoints in pool order, each once, and call
`N + 1` returns the first endpoint again. -/
theorem roundRobin_of_parsable (urlParse : String → Except GoError URL)
    (pool : List ProxyConfig) (hne : 1 ≤ pool.length)
    (hp : ∀ p ∈ pool, ∃ u, urlParse p.URL = .ok u) : RoundRobin urlParse pool := by
  intro i hi
  have h := calls_getElem urlParse pool hp (pool.length + 1) 0 i (by omega) (by omega)
  simpa [NewProxyManager] using h

/-- The pool of `main`, whose two URLs parse, is served round-robin. -/
theorem roundRobin_of_parsable_witness :
    1 ≤ mainPool.length ∧ (∀ p ∈ mainPool, ∃ u, ctlParse p.URL = .ok u) ∧
      RoundRobin ctlParse mainPool :=
  have hp : ∀ p ∈ mainPool, ∃ u, ctlParse p.URL = .ok u := by
    intro p hp
    simp only [mainPool, List.mem_cons, List.mem_singleton, List.not_mem_nil, or_false] at hp
    rcases hp with rfl | rfl
    · exact ⟨⟨"http://proxy1.example.com:8080"⟩, rfl⟩
    · exact ⟨⟨"http://proxy2.example.com:8080"⟩, rfl⟩
  ⟨by decide, hp, roundRobin_of_parsable ctlParse mainPool (by decide) hp⟩

/-- C2 (as stated) fails: in a pool of two endpoints whose second URL does not
parse, the second call returns the parse error instead of an endpoint (and the
cursor stays on that entry, so the third call fails too). -/
theorem roundRobin_fails_on_unparsable_url :
    1 ≤ brokenPool.length ∧
    (ProxyManager.calls ctlParse 3 (NewProxyManager brokenPool)).1
      = [ .ok ⟨"http://proxy1.example.com:8080"⟩ (some ⟨"user", "pass"⟩),
          .err (.opError "parse" (.sentinel .malformedURL)),
          .err (.opError "parse" (.sentinel .malformedURL)) ] ∧
    ¬ RoundRobin ctlParse brokenPool := by
  have hcalls : (ProxyManager.calls ctlParse 3 (NewProxyManager brokenPool)).1
      = [ .ok ⟨"http://proxy1.example.com:8080"⟩ (some ⟨"user", "pass"⟩),
          .err (.opError "parse" (.sentinel .malformedURL)),
          .err (.opError "parse" (.sentinel .malformedURL)) ] := by decide
  refine ⟨by decide, hcalls, ?_⟩
  intro h
  obtain ⟨p, u, _, _, h3⟩ := h 1 (by decide)
  have hlen : brokenPool.length + 1 = 3 := by decide
  rw [hlen, hcalls] at h3
  simp at h3

/-- C3: on a manager whose pool is empty, whatever its cursor, every one of
`n` consecutive `GetNextProxy` calls returns the error "no proxies available"
with no endpoint and no credentials, none of them panics on an index, and the
manager is left unchanged. -/
theorem emptyPool_calls (urlParse : String → Except GoError URL) (idx : Int) (n : Nat) :
    ProxyManager.calls urlParse n ⟨[], idx⟩
      = (List.replicate n (.err (.errorString "no proxies available")), ⟨[], idx⟩) := by
  induction n with
  | zero => rfl
  | succ n ih => simp [ProxyManager.calls, GetNextProxy_empty, ih, List.replicate_succ]

/-! ## Resilient HTTP client -/

/-- The classifier rejects nothing: its list of unrecoverable errors is empty. -/
theorem isUnrecoverableError_false (err : GoError) : isUnrecoverableError err = false := by
  simp [isUnrecoverableError, unrecoverableErrors]

theorem NewResilientHTTPClient_inv (pm : ProxyManager) (h : pm.Inv) :
    (NewResilientHTTPClient (some pm)).Inv := by
  intro pm1 h1
  simp only [NewResilientHTTPClient, Option.some.injEq] at h1
  subst h1
  exact h

theorem NewResilientHTTPClient_none_inv : (NewResilientHTTPClient none).Inv := by
  intro pm1 h1
  simp [NewResilientHTTPClient] at h1

/-- Under the invariant the rotation block does not panic; it keeps the
invariant and leaves the histories alone. -/
theorem rotateProxy_inv (urlParse : String → Except GoError URL) (c : ResilientHTTPClient)
    (req : Request) (h : c.Inv) :
    ∃ c1 req1, rotateProxy urlParse c req = some (c1, req1) ∧ c1.Inv ∧
      c1.sent = c.sent ∧ c1.logger = c.logger ∧ c1.slept = c.slept := by
  cases hpm : c.proxyManager with
  | none => exact ⟨c, req, by simp only [rotateProxy, hpm], h, rfl, rfl, rfl⟩
  | some pm =>
    obtain ⟨hnp, hinv, _⟩ := GetNextProxy_inv urlParse pm (h pm hpm)
    rcases hres : pm.GetNextProxy urlParse with ⟨r, pm1⟩
    rw [hres] at hnp hinv
    simp only at hnp hinv
    have hinv1 : ∀ (c1 : ResilientHTTPClient), c1.proxyManager = some pm1 → c1.Inv := by
      intro c1 hc pm2 h2
      rw [hc] at h2
      simp only [Option.some.injEq] at h2
      subst h2
      exact hinv
    cases r with
    | indexPanic => exact absurd rfl hnp
    | err e =>
      exact ⟨{ c with proxyManager := some pm1 }, req,
        by simp only [rotateProxy, hpm, hres], hinv1 _ rfl, rfl, rfl, rfl⟩
    | ok u a =>
      cases a with
      | none =>
        exact ⟨{ c with proxyManager := some pm1, Proxy := some u }, req,
          by simp only [rotateProxy, hpm, hres], hinv1 _ rfl, rfl, rfl, rfl⟩
      | some a =>
        exact ⟨{ c with proxyManager := some pm1, Proxy := some u },
          { req with BasicAuth := some a },
          by simp only [rotateProxy, hpm, hres], hinv1 _ rfl, rfl, rfl, rfl⟩

/-- When every round trip fails with an error the classifier lets through, the
loop runs all its remaining iterations:
it returns the error of `main.go` 139, has sent one request and logged one
error per iteration, and the last log entry holds the error of the last
request sent. -/
theorem DoLoop_all_fail (urlParse : String → Except GoError URL) (ovf : Int → Int) (net : Net)
    (strategy : RetryStrategy)
    (hfail : ∀ i r p, ∃ e, net.roundTrip i r p = .error e ∧ isUnrecoverableError e = false) :
    ∀ (remaining attempt : Nat) (c : ResilientHTTPClient) (req : Request), c.Inv →
      (DoLoop urlParse ovf net strategy remaining attempt c req).1
          = .err (retriesExhausted strategy) ∧
      (DoLoop urlParse ovf net strategy remaining attempt c req).2.Inv ∧
      (DoLoop urlParse ovf net strategy remaining attempt c req).2.sent.length
          = c.sent.length + remaining ∧
      (DoLoop urlParse ovf net strategy remaining attempt c req).2.logger.length
          = c.logger.length + remaining ∧
      (1 ≤ remaining → ∃ r p e,
        (DoLoop urlParse ovf net strategy remaining attempt c req).2.sent.getLast? = some (r, p) ∧
        net.roundTrip (attempt + remaining - 1) r p = .error e ∧
        (DoLoop urlParse ovf net strategy remaining attempt c req).2.logger.getLast?
          = some (((attempt + remaining : Nat) : Int), e)) := by
  intro remaining
  induction remaining with
  | zero =>
    intro attempt c req hc
    exact ⟨rfl, hc, rfl, rfl, fun h => absurd h (by omega)⟩
  | succ n ih =>
    intro attempt c req hc
    have hc0 : ResilientHTTPClient.Inv
        { c with slept := c.slept ++
          [calculateBackoff ovf strategy attempt (net.intn attempt)] } := hc
    obtain ⟨c1, req1, hrot, hc1, hs1, hl1, _⟩ := rotateProxy_inv urlParse _ req hc0
    obtain ⟨e, he, hrec⟩ := hfail attempt req1 c1.Proxy
    have hc3 : ResilientHTTPClient.Inv
        { c1 with sent := c1.sent ++ [(req1, c1.Proxy)],
                  logger := c1.logger ++ [((attempt : Int) + 1, e)] } := hc1
    obtain ⟨i1, i2, i3, i4, i5⟩ := ih (attempt + 1) _ req1 hc3
    have hstep : DoLoop urlParse ovf net strategy (n + 1) attempt c req
        = DoLoop urlParse ovf net strategy n (attempt + 1)
            { c1 with sent := c1.sent ++ [(req1, c1.Proxy)],
                      logger := c1.logger ++ [((attempt : Int) + 1, e)] } req1 := by
      rw [DoLoop]
      simp only [hrot, he, hrec]
      rfl
    rw [hstep]
    refine ⟨i1, i2, ?_, ?_, ?_⟩
    · rw [i3]; simp only [List.length_append, List.length_singleton, hs1]; omega
    · rw [i4]; simp only [List.length_append, List.length_singleton, hl1]; omega
    · intro _
      cases n with
      | zero =>
        refine ⟨req1, c1.Proxy, e, ?_, ?_, ?_⟩
        · simp [DoLoop]
        · simpa using he
        · simp [DoLoop]
      | succ m =>
        obtain ⟨r, p, e2, j1, j2, j3⟩ := i5 (by omega)
        refine ⟨r, p, e2, j1, ?_, ?_⟩
        · have : attempt + (m + 1 + 1) - 1 = attempt + 1 + (m + 1) - 1 := by omega
          rw [this]; exact j2
        · have : attempt + (m + 1 + 1) = attempt + 1 + (m + 1) := by omega
          rw [this]; exact j3

theorem mainClient_inv : mainClient.Inv :=
  NewResilientHTTPClient_inv _ (NewProxyManager_inv mainPool)

theorem failingNet_fails (e : GoError) :
    ∀ (i : Nat) (r : Request) (p : Option URL),
      ∃ e1, (failingNet e).roundTrip i r p = .error e1 ∧ isUnrecoverableError e1 = false :=
  fun _ _ _ => ⟨e, rfl, isUnrecoverableError_false e⟩

/-- C4: for every `k ≥ 1`, when `MaxAttempts = k` and every request attempt
fails with a retryable error, `Do` hands the request to the transport exactly
`k` times and then returns no response and the error "request failed after k
attempts". -/
theorem Do_issues_k_requests_then_fails (urlParse : String → Except GoError URL)
    (ovf : Int → Int) (net : Net) (c : ResilientHTTPClient) (req : Request)
    (strategy : RetryStrategy) (k : Nat) (_hk : 1 ≤ k)
    (hmax : strategy.MaxAttempts = (k : Int)) (hinv : c.Inv)
    (hfail : ∀ i r p, ∃ e, net.roundTrip i r p = .error e ∧ isUnrecoverableError e = false) :
    (c.Do urlParse ovf net req strategy).1
        = .err (.errorString ("request failed after " ++ toString (k : Int) ++ " attempts")) ∧
      (c.Do urlParse ovf net req strategy).2.sent.length = c.sent.length + k := by
  have hn : strategy.MaxAttempts.toNat = k := by rw [hmax]; exact Int.toNat_natCast k
  obtain ⟨h1, _, h3, _, _⟩ := DoLoop_all_fail urlParse ovf net strategy hfail k 0 c req hinv
  unfold ResilientHTTPClient.Do
  rw [hn]
  refine ⟨?_, h3⟩
  rw [h1, retriesExhausted, hmax]

/-- The registered policy (three attempts) on a transport that always refuses
the connection: three requests are issued, then the call fails. -/
theorem Do_issues_k_requests_then_fails_witness :
    1 ≤ 3 ∧ crtShRetry.MaxAttempts = ((3 : Nat) : Int) ∧ mainClient.Inv ∧
    (∀ i r p, ∃ e, (failingNet refusedErr).roundTrip i r p = .error e ∧
      isUnrecoverableError e = false) ∧
    (mainClient.Do ctlParse amd64Ovf (failingNet refusedErr) sampleRequest crtShRetry).1
        = .err (.errorString ("request failed after " ++ toString ((3 : Nat) : Int) ++ " attempts")) ∧
      (mainClient.Do ctlParse amd64Ovf (failingNet refusedErr) sampleRequest crtShRetry).2.sent.length
        = mainClient.sent.length + 3 :=
  have hfail : ∀ (i : Nat) (r : Request) (p : Option URL),
      ∃ e, (failingNet refusedErr).roundTrip i r p = .error e ∧
        isUnrecoverableError e = false :=
    fun _ _ _ => ⟨refusedErr, rfl, isUnrecoverableError_false _⟩
  ⟨by decide, by decide, mainClient_inv, hfail,
    Do_issues_k_requests_then_fails ctlParse amd64Ovf (failingNet refusedErr) mainClient
      sampleRequest crtShRetry 3 (by decide) (by decide) mainClient_inv hfail⟩

/-- C5: with `MaxAttempts = 3` and a first (and every) attempt failing with
error `e`, of whatever kind, `Do` does not stop after one request: the
classifier answers `false`, three requests are issued, and the error returned
is "request failed after 3 attempts". For a context cancellation in
particular the error returned is not the cancellation error. -/
theorem Do_retries_unrecoverable_error (urlParse : String → Except GoError URL)
    (ovf : Int → Int) (e : GoError) :
    isUnrecoverableError e = false ∧
      (mainClient.Do urlParse ovf (failingNet e) sampleRequest crtShRetry).1
        = .err (.errorString "request failed after 3 attempts") ∧
      (mainClient.Do urlParse ovf (failingNet e) sampleRequest crtShRetry).2.sent.length = 3 ∧
      (mainClient.Do urlParse ovf (failingNet canceledErr) sampleRequest crtShRetry).1
        ≠ .err canceledErr := by
  have hn : crtShRetry.MaxAttempts.toNat = 3 := by decide
  have hmsg : retriesExhausted crtShRetry = .errorString "request failed after 3 attempts" := by
    decide
  have key : ∀ e1 : GoError,
      (mainClient.Do urlParse ovf (failingNet e1) sampleRequest crtShRetry).1
        = .err (.errorString "request failed after 3 attempts") ∧
      (mainClient.Do urlParse ovf (failingNet e1) sampleRequest crtShRetry).2.sent.length
        = 3 := by
    intro e1
    obtain ⟨h1, _, h3, _, _⟩ := DoLoop_all_fail urlParse ovf (failingNet e1) crtShRetry
      (failingNet_fails e1) 3 0 mainClient sampleRequest mainClient_inv
    unfold ResilientHTTPClient.Do
    rw [hn, h1, h3, hmsg]
    exact ⟨rfl, by decide⟩
  refine ⟨isUnrecoverableError_false _, (key e).1, (key e).2, ?_⟩
  rw [(key canceledErr).1]
  decide

/-- C9 (amended): whenever `Do` fails because all `MaxAttempts` attempts
failed, each with a retryable error, the error it returns is the new error
"request failed after MaxAttempts attempts". That error wraps nothing and
does not carry the transport error observed on the last attempt (short of
that error being this very value); the transport error of the last attempt
is recorded in the last log entry. -/
theorem Do_exhausted_reports_count_only (urlParse : String → Except GoError URL)
    (ovf : Int → Int) (net : Net) (c : ResilientHTTPClient) (req : Request)
    (strategy : RetryStrategy) (hinv : c.Inv)
    (hfail : ∀ i r p, ∃ e, net.roundTrip i r p = .error e ∧ isUnrecoverableError e = false) :
    (c.Do urlParse ovf net req strategy).1
        = .err (.errorString
            ("request failed after " ++ toString strategy.MaxAttempts ++ " attempts")) ∧
      (GoError.errorString
        ("request failed after " ++ toString strategy.MaxAttempts ++ " attempts")).Unwrap
          = none ∧
      (c.Do urlParse ovf net req strategy).2.sent.length
        = c.sent.length + strategy.MaxAttempts.toNat ∧
      (1 ≤ strategy.MaxAttempts → ∃ r p e,
        (c.Do urlParse ovf net req strategy).2.sent.getLast? = some (r, p) ∧
        net.roundTrip (strategy.MaxAttempts.toNat - 1) r p = .error e ∧
        (c.Do urlParse ovf net req strategy).2.logger.getLast?
          = some (strategy.MaxAttempts, e) ∧
        (e ≠ .errorString
              ("request failed after " ++ toString strategy.MaxAttempts ++ " attempts") →
          errorsIs (.errorString
              ("request failed after " ++ toString strategy.MaxAttempts ++ " attempts")) e
            = false)) := by
  unfold ResilientHTTPClient.Do
  obtain ⟨h1, _, h3, _, h5⟩ :=
    DoLoop_all_fail urlParse ovf net strategy hfail strategy.MaxAttempts.toNat 0 c req hinv
  refine ⟨h1, rfl, h3, ?_⟩
  intro hk
  obtain ⟨r, p, e, j1, j2, j3⟩ := h5 (by omega)
  refine ⟨r, p, e, j1, ?_, ?_, ?_⟩
  · simpa using j2
  · rw [j3]
    have : ((0 + strategy.MaxAttempts.toNat : Nat) : Int) = strategy.MaxAttempts := by
      rw [Nat.zero_add]; exact Int.toNat_of_nonneg (by omega)
    rw [this]
  · intro hne
    simp only [errorsIs, beq_eq_false_iff_ne, ne_eq]
    exact fun h => hne h.symm

/-- The registered policy on a transport that always refuses the connection:
the call fails with the count-only error and the refusal is the last log entry. -/
theorem Do_exhausted_reports_count_only_witness :
    mainClient.Inv ∧
    (∀ i r p, ∃ e, (failingNet refusedErr).roundTrip i r p = .error e ∧
      isUnrecoverableError e = false) ∧
    (mainClient.Do ctlParse amd64Ovf (failingNet refusedErr) sampleRequest crtShRetry).1
      = .err (.errorString
          ("request failed after " ++ toString crtShRetry.MaxAttempts ++ " attempts")) ∧
    (mainClient.Do ctlParse amd64Ovf (failingNet refusedErr) sampleRequest
      crtShRetry).2.logger.getLast? = some (3, refusedErr) :=
  have hfail : ∀ (i : Nat) (r : Request) (p : Option URL),
      ∃ e, (failingNet refusedErr).roundTrip i r p = .error e ∧
        isUnrecoverableError e = false :=
    fun _ _ _ => ⟨refusedErr, rfl, by decide⟩
  ⟨mainClient_inv, hfail,
    (Do_exhausted_reports_count_only ctlParse amd64Ovf (failingNet refusedErr) mainClient
      sampleRequest crtShRetry mainClient_inv hfail).1, by decide⟩

/-- C9 (as stated) fails: after three attempts that all fail with
"connection refused", the error `Do` returns is "request failed after 3
attempts"; the refused-connection error of the last attempt is in the log but
is not on the `Unwrap` chain of the returned error, and a transport failing
with a different error yields the very same returned error. -/
theorem Do_error_omits_last_transport_error :
    (mainClient.Do ctlParse amd64Ovf (failingNet refusedErr) sampleRequest crtShRetry).1
      = .err (.errorString "request failed after 3 attempts") ∧
    (mainClient.Do ctlParse amd64Ovf (failingNet refusedErr) sampleRequest
      crtShRetry).2.logger.getLast? = some (3, refusedErr) ∧
    errorsIs (.errorString "request failed after 3 attempts") refusedErr = false ∧
    (GoError.errorString "request failed after 3 attempts").Unwrap = none ∧
    (mainClient.Do ctlParse amd64Ovf (failingNet timeoutErr) sampleRequest crtShRetry).1
      = (mainClient.Do ctlParse amd64Ovf (failingNet refusedErr) sampleRequest crtShRetry).1 := by
  refine ⟨by decide, by decide, by decide, rfl, by decide⟩

/-! ## Key sets -/

theorem mem_addKey (m : List String) (k s : String) : s ∈ addKey m k ↔ s ∈ m ∨ s = k := by
  unfold addKey
  split
  · constructor
    · exact Or.inl
    · rintro (h | rfl)
      · exact h
      · assumption
  · simp

theorem addKey_nodup (m : List String) (k : String) (h : m.Nodup) : (addKey m k).Nodup := by
  unfold addKey
  split
  · exact h
  · rename_i hk
    exact List.Nodup.append h (List.nodup_singleton k) (by simpa using hk)

theorem mem_mergeInto (subs : List String) :
    ∀ (results : List String) (s : String), s ∈ mergeInto results subs ↔ s ∈ results ∨ s ∈ subs := by
  induction subs with
  | nil => intro results s; simp [mergeInto]
  | cons x xs ih =>
    intro results s
    have h := ih (addKey results x) s
    simp only [mergeInto, List.foldl_cons] at h ⊢
    rw [h, mem_addKey, List.mem_cons]
    tauto

theorem mergeInto_nodup (subs : List String) :
    ∀ (results : List String), results.Nodup → (mergeInto results subs).Nodup := by
  induction subs with
  | nil => intro results h; simpa [mergeInto] using h
  | cons x xs ih =>
    intro results h
    have := ih (addKey results x) (addKey_nodup results x h)
    simpa [mergeInto] using this

theorem mem_keysToSlice (o : Order String) (m : List String) (s : String) :
    s ∈ keysToSlice o m ↔ s ∈ m :=
  (o.perm m).mem_iff

theorem keysToSlice_nodup (o : Order String) (m : List String) (h : m.Nodup) :
    (keysToSlice o m).Nodup :=
  (o.perm m).nodup_iff.2 h

/-- The key-collecting loop of `parseCrtShResponse` keeps the key list free of
duplicates and adds exactly the `common_name` values that are present. -/
theorem parseLoop_spec (records : List Record) :
    ∀ (m : List String), m.Nodup →
      (records.foldl
        (fun m result =>
          match result.lookup "common_name" with
          | some commonName => addKey m commonName
          | none => m) m).Nodup ∧
      ∀ s, s ∈ records.foldl
        (fun m result =>
          match result.lookup "common_name" with
          | some commonName => addKey m commonName
          | none => m) m ↔ s ∈ m ∨ ∃ r ∈ records, r.lookup "common_name" = some s := by
  induction records with
  | nil => intro m h; simp [h]
  | cons r rs ih =>
    intro m h
    simp only [List.foldl_cons]
    cases hr : r.lookup "common_name" with
    | none =>
      obtain ⟨h1, h2⟩ := ih m h
      refine ⟨h1, fun s => ?_⟩
      rw [h2 s]
      simp only [List.mem_cons, exists_eq_or_imp, hr]
      simp
    | some cn =>
      obtain ⟨h1, h2⟩ := ih (addKey m cn) (addKey_nodup m cn h)
      refine ⟨h1, fun s => ?_⟩
      rw [h2 s, mem_addKey]
      simp only [List.mem_cons, exists_eq_or_imp, hr, Option.some.injEq]
      constructor
      · rintro ((h | h) | h)
        · exact Or.inl h
        · exact Or.inr (Or.inl h.symm)
        · exact Or.inr (Or.inr h)
      · rintro (h | h | h)
        · exact Or.inl (Or.inl h)
        · exact Or.inl (Or.inr h.symm)
        · exact Or.inr h

/-- C6: `parseCrtShResponse` fails exactly when `json.Unmarshal` of the body
into a slice of string maps fails, and then with that error. When the body
decodes to `records` it returns a list without duplicates whose elements are
exactly the `common_name` values of the records that have the field; no
records give the empty list, and two records with the same `common_name` give
the one-element list of that name. -/
theorem parseCrtShResponse_spec (unmarshal : List UInt8 → Except GoError (List Record))
    (o : Order String) (body : List UInt8) :
    (∀ err, parseCrtShResponse unmarshal o body = .error err ↔ unmarshal body = .error err) ∧
    match unmarshal body with
    | .error err => parseCrtShResponse unmarshal o body = .error err
    | .ok records =>
      ∃ l, parseCrtShResponse unmarshal o body = .ok l ∧ l.Nodup ∧
        (∀ s, s ∈ l ↔ ∃ r ∈ records, r.lookup "common_name" = some s) ∧
        (records = [] → l = []) ∧
        (∀ r1 r2 cn, records = [r1, r2] → r1.lookup "common_name" = some cn →
          r2.lookup "common_name" = some cn → l = [cn]) := by
  unfold parseCrtShResponse
  cases hu : unmarshal body with
  | error e => simp
  | ok records =>
    obtain ⟨h1, h2⟩ := parseLoop_spec records [] List.nodup_nil
    refine ⟨by simp, _, rfl, keysToSlice_nodup o _ h1, ?_, ?_, ?_⟩
    · intro s
      rw [mem_keysToSlice, h2 s]
      simp
    · intro hnil
      subst hnil
      exact List.Perm.eq_nil (o.perm _)
    · intro r1 r2 cn hrec hr1 hr2
      subst hrec
      have hfold : List.foldl
          (fun m result =>
            match List.lookup "common_name" result with
            | some commonName => addKey m commonName
            | none => m) [] [r1, r2] = [cn] := by
        simp [List.foldl, hr1, hr2, addKey]
      simp only [hfold]
      exact List.perm_singleton.1 (o.perm _)

/-! ## Merging -/

/-- C7: merging the lists of two sources into an empty result set, in either
order, and copying the set into a slice gives a list without duplicates,
whose elements are those of the two lists and whose length is the
cardinality of the union of their element sets; the names a, b, a of
example.com give a list holding exactly a.example.com and b.example.com. -/
theorem merge_two_sources (o : Order String) (xs ys : List String) :
    (keysToSlice o (mergeInto (mergeInto [] xs) ys)).Nodup ∧
    (keysToSlice o (mergeInto (mergeInto [] ys) xs)).Nodup ∧
    (∀ s, s ∈ keysToSlice o (mergeInto (mergeInto [] xs) ys) ↔ s ∈ xs ∨ s ∈ ys) ∧
    (∀ s, s ∈ keysToSlice o (mergeInto (mergeInto [] ys) xs) ↔ s ∈ xs ∨ s ∈ ys) ∧
    (keysToSlice o (mergeInto (mergeInto [] xs) ys)).length
      = (xs.toFinset ∪ ys.toFinset).card ∧
    (keysToSlice o (mergeInto (mergeInto [] ys) xs)).length
      = (xs.toFinset ∪ ys.toFinset).card ∧
    (keysToSlice o (mergeInto [] ["a.example.com", "b.example.com", "a.example.com"])).Perm
      ["a.example.com", "b.example.com"] := by
  have n1 : (keysToSlice o (mergeInto (mergeInto [] xs) ys)).Nodup :=
    keysToSlice_nodup o _ (mergeInto_nodup ys _ (mergeInto_nodup xs _ List.nodup_nil))
  have n2 : (keysToSlice o (mergeInto (mergeInto [] ys) xs)).Nodup :=
    keysToSlice_nodup o _ (mergeInto_nodup xs _ (mergeInto_nodup ys _ List.nodup_nil))
  have m1 : ∀ s, s ∈ keysToSlice o (mergeInto (mergeInto [] xs) ys) ↔ s ∈ xs ∨ s ∈ ys := by
    intro s
    rw [mem_keysToSlice, mem_mergeInto, mem_mergeInto]
    simp
  have m2 : ∀ s, s ∈ keysToSlice o (mergeInto (mergeInto [] ys) xs) ↔ s ∈ xs ∨ s ∈ ys := by
    intro s
    rw [mem_keysToSlice, mem_mergeInto, mem_mergeInto]
    simp [or_comm]
  have card : ∀ l : List String, l.Nodup → (∀ s, s ∈ l ↔ s ∈ xs ∨ s ∈ ys) →
      l.length = (xs.toFinset ∪ ys.toFinset).card := by
    intro l hl hm
    rw [← List.toFinset_card_of_nodup hl]
    congr 1
    ext s
    simp [hm s]
  refine ⟨n1, n2, m1, m2, card _ n1 m1, card _ n2 m2, ?_⟩
  have hm : mergeInto [] ["a.example.com", "b.example.com", "a.example.com"]
      = ["a.example.com", "b.example.com"] := by decide
  rw [hm]
  exact o.perm _

/-! ## Enumerator -/

/-- Under the invariant the loop of `Do` does not panic and keeps the invariant. -/
theorem DoLoop_inv (urlParse : String → Except GoError URL) (ovf : Int → Int) (net : Net)
    (strategy : RetryStrategy) :
    ∀ (remaining attempt : Nat) (c : ResilientHTTPClient) (req : Request), c.Inv →
      (DoLoop urlParse ovf net strategy remaining attempt c req).1 ≠ .panicked ∧
      (DoLoop urlParse ovf net strategy remaining attempt c req).2.Inv := by
  intro remaining
  induction remaining with
  | zero =>
    intro attempt c req hc
    exact ⟨by simp [DoLoop], hc⟩
  | succ n ih =>
    intro attempt c req hc
    have hc0 : ResilientHTTPClient.Inv
        { c with slept := c.slept ++
          [calculateBackoff ovf strategy attempt (net.intn attempt)] } := hc
    obtain ⟨c1, req1, hrot, hc1, _, _, _⟩ := rotateProxy_inv urlParse _ req hc0
    cases he : net.roundTrip attempt req1 c1.Proxy with
    | ok resp =>
      have hstep : DoLoop urlParse ovf net strategy (n + 1) attempt c req
          = (.resp resp, { c1 with sent := c1.sent ++ [(req1, c1.Proxy)] }) := by
        rw [DoLoop]
        simp only [hrot, he]
      rw [hstep]
      exact ⟨by simp, hc1⟩
    | error e =>
      have hc3 : ResilientHTTPClient.Inv
          { c1 with sent := c1.sent ++ [(req1, c1.Proxy)],
                    logger := c1.logger ++ [((attempt : Int) + 1, e)] } := hc1
      cases hu : isUnrecoverableError e with
      | true =>
        have hstep : DoLoop urlParse ovf net strategy (n + 1) attempt c req
            = (.err e, { c1 with sent := c1.sent ++ [(req1, c1.Proxy)],
                                 logger := c1.logger ++ [((attempt : Int) + 1, e)] }) := by
          rw [DoLoop]
          simp only [hrot, he, hu]
          rfl
        rw [hstep]
        exact ⟨by simp, hc3⟩
      | false =>
        have hstep : DoLoop urlParse ovf net strategy (n + 1) attempt c req
            = DoLoop urlParse ovf net strategy n (attempt + 1)
                { c1 with sent := c1.sent ++ [(req1, c1.Proxy)],
                          logger := c1.logger ++ [((attempt : Int) + 1, e)] } req1 := by
          rw [DoLoop]
          simp only [hrot, he, hu]
          rfl
        rw [hstep]
        exact ih (attempt + 1) _ req1 hc3

/-- Under the invariant a fetch does not panic and keeps the invariant. -/
theorem fetch_inv (w : World) (task : Nat) (c : ResilientHTTPClient) (domain : String)
    (config : SourceConfig) (hc : c.Inv) :
    (fetchSubdomainsFromSource w task c domain config).1 ≠ .panicked ∧
      (fetchSubdomainsFromSource w task c domain config).2.Inv := by
  unfold fetchSubdomainsFromSource
  simp only
  cases hreq : w.newRequest config.Method (w.sprintf config.URL domain) with
  | error e => exact ⟨by simp, hc⟩
  | ok req0 =>
    simp only
    obtain ⟨h1, h2⟩ := DoLoop_inv w.urlParse w.ovf (w.net task) config.RetryStrategy
      config.RetryStrategy.MaxAttempts.toNat 0 c
      (config.Headers.foldl (fun r kv => r.setHeader kv.1 kv.2) req0) hc
    unfold ResilientHTTPClient.Do
    rcases hd : DoLoop w.urlParse w.ovf (w.net task) config.RetryStrategy
      config.RetryStrategy.MaxAttempts.toNat 0 c
      (config.Headers.foldl (fun r kv => r.setHeader kv.1 kv.2) req0) with ⟨r, c1⟩
    rw [hd] at h1 h2 ⊢
    simp only at h1 h2
    cases r with
    | panicked => exact absurd rfl h1
    | err e => exact ⟨by simp, h2⟩
    | resp resp =>
      simp only
      cases hb : resp.BodyErr with
      | some e => exact ⟨by simp, h2⟩
      | none =>
        simp only
        cases hps : config.ParsingStrategy resp.Body with
        | error e => exact ⟨by simp, h2⟩
        | ok subs => exact ⟨by simp, h2⟩

theorem groupWait_append_none (l : List (Option GoError)) :
    groupWait (l ++ [none]) = groupWait l := by
  induction l with
  | nil => rfl
  | cons x xs ih =>
    cases x with
    | none => simpa [groupWait] using ih
    | some e => simp [groupWait]

/-- The goroutines of a group, started on a client that satisfies the
invariant: none panics, every group function returns nil, the result map
gains exactly the subdomains of the successful fetches and stays free of
duplicates, and the channel receives exactly the errors of the failed fetches. -/
theorem runTasks_spec (w : World) (domain : String) :
    ∀ (tasks : List (Nat × SourceConfig)) (g : GroupState), g.client.Inv →
      ∃ g1, runTasks w domain tasks g = some g1 ∧ g1.client.Inv ∧
        (∀ s, s ∈ g1.results ↔
          s ∈ g.results ∨ ∃ r ∈ fetchAll w domain tasks g.client, s ∈ r.subdomains) ∧
        (g.results.Nodup → g1.results.Nodup) ∧
        g1.errorHandling
          = g.errorHandling ++ (fetchAll w domain tasks g.client).filterMap FetchResult.error? ∧
        groupWait g1.returned = groupWait g.returned ∧
        (∀ r ∈ fetchAll w domain tasks g.client, r ≠ .panicked) ∧
        (fetchAll w domain tasks g.client).length = tasks.length := by
  intro tasks
  induction tasks with
  | nil =>
    intro g hg
    exact ⟨g, rfl, hg, by simp [fetchAll], id, by simp [fetchAll], rfl, by simp [fetchAll], rfl⟩
  | cons t ts ih =>
    intro g hg
    obtain ⟨hnp, hinv⟩ := fetch_inv w t.1 g.client domain t.2 hg
    rcases hf : fetchSubdomainsFromSource w t.1 g.client domain t.2 with ⟨r, c⟩
    rw [hf] at hnp hinv
    simp only at hnp hinv
    cases r with
    | panicked => exact absurd rfl hnp
    | err e =>
      obtain ⟨g1, k1, k2, k3, k4, k5, k6, k7, k8⟩ := ih
        { g with client := c, errorHandling := g.errorHandling ++ [e],
                 returned := g.returned ++ [none] } hinv
      refine ⟨g1, ?_, k2, ?_, k4, ?_, ?_, ?_, ?_⟩
      · simp only [runTasks, runTask, hf]; exact k1
      · intro s
        rw [k3 s]
        simp [fetchAll, hf, FetchResult.subdomains]
      · rw [k5]
        simp [fetchAll, hf, FetchResult.error?]
      · rw [k6]; exact groupWait_append_none _
      · intro r hr
        simp only [fetchAll, hf, List.mem_cons] at hr
        rcases hr with rfl | hr
        · simp
        · exact k7 r hr
      · simp only [fetchAll, hf, List.length_cons]
        exact congrArg (· + 1) k8
    | ok subs =>
      obtain ⟨g1, k1, k2, k3, k4, k5, k6, k7, k8⟩ := ih
        { g with client := c, results := mergeInto g.results subs,
                 returned := g.returned ++ [none] } hinv
      refine ⟨g1, ?_, k2, ?_, ?_, ?_, ?_, ?_, ?_⟩
      · simp only [runTasks, runTask, hf]; exact k1
      · intro s
        rw [k3 s]
        simp only [fetchAll, hf, List.mem_cons, exists_eq_or_imp, FetchResult.subdomains,
          mem_mergeInto]
        tauto
      · intro hn
        exact k4 (mergeInto_nodup subs _ hn)
      · rw [k5]
        simp [fetchAll, hf, FetchResult.error?]
      · rw [k6]; exact groupWait_append_none _
      · intro r hr
        simp only [fetchAll, hf, List.mem_cons] at hr
        rcases hr with rfl | hr
        · simp
        · exact k7 r hr
      · simp only [fetchAll, hf, List.length_cons]
        exact congrArg (· + 1) k8

/-- One `Enumerate` call on an enumerator whose proxy manager satisfies the
rotator invariant: the call returns a list and no error; the list holds what
the result map held before the call together with the subdomains of the
successful fetches; the channel receives the errors of the failed fetches. -/
theorem Enumerate_spec (w : World) (sched : Order (Nat × SourceConfig)) (o : Order String)
    (e : SubdomainEnumerator) (domain : String) (hpm : e.proxyManager.Inv) :
    ∃ l e1, e.Enumerate w sched o domain = (.ok l, e1) ∧
      (∀ s, s ∈ l ↔ s ∈ e.results ∨ ∃ r ∈ e.outcomes w sched domain, s ∈ r.subdomains) ∧
      (e.results.Nodup → l.Nodup) ∧
      (∀ s, s ∈ e1.results ↔ s ∈ l) ∧
      (e.results.Nodup → e1.results.Nodup) ∧
      e1.errorHandling
        = e.errorHandling ++ (e.outcomes w sched domain).filterMap FetchResult.error? ∧
      e1.proxyManager.Inv ∧ e1.sources = e.sources ∧
      (∀ r ∈ e.outcomes w sched domain, r ≠ .panicked) ∧
      (e.outcomes w sched domain).length = e.sources.length := by
  obtain ⟨g1, k1, k2, k3, k4, k5, k6, k7, k8⟩ := runTasks_spec w domain
    (sched.apply e.sources.enum)
    { client := NewResilientHTTPClient (some e.proxyManager), results := e.results,
      errorHandling := e.errorHandling, returned := [] }
    (NewResilientHTTPClient_inv _ hpm)
  have hw : groupWait g1.returned = none := by rw [k6]; rfl
  refine ⟨keysToSlice o g1.results,
    { e with proxyManager := g1.client.proxyManager.getD e.proxyManager,
             results := g1.results, errorHandling := g1.errorHandling }, ?_, ?_, ?_, ?_, ?_,
    ?_, ?_, rfl, ?_, ?_⟩
  · unfold SubdomainEnumerator.Enumerate
    simp only [k1, hw]
  · intro s
    rw [mem_keysToSlice, k3 s]
    rfl
  · intro hn
    exact keysToSlice_nodup o _ (k4 hn)
  · intro s
    exact (mem_keysToSlice o _ s).symm
  · exact k4
  · exact k5
  · show (g1.client.proxyManager.getD e.proxyManager).Inv
    cases hq : g1.client.proxyManager with
    | none => exact hpm
    | some pm => exact k2 pm hq
  · exact k7
  · unfold SubdomainEnumerator.outcomes
    rw [k8, (sched.perm _).length_eq, List.enum_length]

/-- C8 (amended): the result set is created empty by `NewSubdomainEnumerator`
and kept by the enumerator from call to call. The list returned by the first
`Enumerate` call on a new enumerator holds exactly the subdomains the sources
delivered during that call; the list returned by the next call holds exactly
the subdomains delivered during the first call together with those delivered
during the second. Both lists are free of duplicates. -/
theorem Enumerate_results_accumulate (w1 w2 : World)
    (sched1 sched2 : Order (Nat × SourceConfig)) (o1 o2 : Order String)
    (sourceConfigurations : List SourceConfig) (proxies : List ProxyConfig)
    (domain1 domain2 : String) :
    ∃ l1 e1 l2 e2,
      (NewSubdomainEnumerator sourceConfigurations proxies).Enumerate w1 sched1 o1 domain1
        = (.ok l1, e1) ∧
      e1.Enumerate w2 sched2 o2 domain2 = (.ok l2, e2) ∧
      (∀ s, s ∈ l1 ↔
        ∃ r ∈ (NewSubdomainEnumerator sourceConfigurations proxies).outcomes w1 sched1 domain1,
          s ∈ r.subdomains) ∧
      (∀ s, s ∈ l2 ↔
        (∃ r ∈ (NewSubdomainEnumerator sourceConfigurations proxies).outcomes w1 sched1 domain1,
          s ∈ r.subdomains) ∨
        ∃ r ∈ e1.outcomes w2 sched2 domain2, s ∈ r.subdomains) ∧
      l1.Nodup ∧ l2.Nodup := by
  obtain ⟨l1, e1, a1, a2, a3, a4, a5, _, a7, _⟩ :=
    Enumerate_spec w1 sched1 o1 (NewSubdomainEnumerator sourceConfigurations proxies) domain1
      (NewProxyManager_inv proxies)
  obtain ⟨l2, e2, b1, b2, b3, _⟩ := Enumerate_spec w2 sched2 o2 e1 domain2 a7
  have hn : (NewSubdomainEnumerator sourceConfigurations proxies).results.Nodup :=
    List.nodup_nil
  have hm1 : ∀ s, s ∈ l1 ↔
      ∃ r ∈ (NewSubdomainEnumerator sourceConfigurations proxies).outcomes w1 sched1 domain1,
        s ∈ r.subdomains := by
    intro s
    rw [a2 s]
    simp [NewSubdomainEnumerator]
  refine ⟨l1, e1, l2, e2, a1, b1, hm1, ?_, a3 hn, b3 (a5 hn)⟩
  intro s
  rw [b2 s, a4 s, hm1 s]

/-- C8 (as stated) fails: the enumerator of `main` is asked twice; during the
first call the source delivers a.example.com, during the second call it
delivers only b.example.com, yet the list returned by the second call also
holds a.example.com, carried over from the first call. -/
theorem Enumerate_second_call_keeps_first_results :
    (mainEnumerator.Enumerate worldA (Order.id _) (Order.id _) "example.com").1
      = .ok ["a.example.com"] ∧
    (mainEnumerator.Enumerate worldA (Order.id _) (Order.id _) "example.com").2.outcomes
        worldB (Order.id _) "example.com" = [.ok ["b.example.com"]] ∧
    ((mainEnumerator.Enumerate worldA (Order.id _) (Order.id _) "example.com").2.Enumerate
        worldB (Order.id _) (Order.id _) "example.com").1
      = .ok ["a.example.com", "b.example.com"] ∧
    ¬ ∀ s, s ∈ ["a.example.com", "b.example.com"] →
        ∃ r ∈ ([.ok ["b.example.com"]] : List FetchResult), s ∈ r.subdomains := by
  refine ⟨by decide, by decide, by decide, ?_⟩
  intro h
  obtain ⟨r, hr, hs⟩ := h "a.example.com" (by decide)
  simp only [List.mem_singleton] at hr
  subst hr
  revert hs
  decide

/-- C10: for every list of sources, every pool, every world and every
schedule, `Enumerate` on the enumerator built by `NewSubdomainEnumerator`
makes one fetch per source, none of which panics, and returns a list and no
error, however many fetches fail. The list is free of duplicates and holds
exactly the subdomains of the succeeding fetches, and the error channel
receives exactly the errors of the failing fetches, one for each. -/
theorem Enumerate_tolerates_source_failures (w : World)
    (sched : Order (Nat × SourceConfig)) (o : Order String)
    (sourceConfigurations : List SourceConfig) (proxies : List ProxyConfig)
    (domain : String) :
    ((NewSubdomainEnumerator sourceConfigurations proxies).outcomes w sched domain).length
      = sourceConfigurations.length ∧
    (∀ r ∈ (NewSubdomainEnumerator sourceConfigurations proxies).outcomes w sched domain,
      r ≠ .panicked) ∧
    ∃ l e1,
      (NewSubdomainEnumerator sourceConfigurations proxies).Enumerate w sched o domain
        = (.ok l, e1) ∧
      l.Nodup ∧
      (∀ s, s ∈ l ↔
        ∃ subs, FetchResult.ok subs ∈
          (NewSubdomainEnumerator sourceConfigurations proxies).outcomes w sched domain ∧
          s ∈ subs) ∧
      e1.errorHandling
        = ((NewSubdomainEnumerator sourceConfigurations proxies).outcomes w sched
            domain).filterMap FetchResult.error? ∧
      e1.errorHandling.length
        = ((NewSubdomainEnumerator sourceConfigurations proxies).outcomes w sched
            domain).countP (fun r => r.error?.isSome) := by
  obtain ⟨l, e1, a1, a2, a3, _, _, a6, _, _, a9, a10⟩ :=
    Enumerate_spec w sched o (NewSubdomainEnumerator sourceConfigurations proxies) domain
      (NewProxyManager_inv proxies)
  have hsink : e1.errorHandling
      = ((NewSubdomainEnumerator sourceConfigurations proxies).outcomes w sched
          domain).filterMap FetchResult.error? := by
    rw [a6]; simp [NewSubdomainEnumerator]
  refine ⟨by rw [a10]; rfl, a9, l, e1, a1, a3 List.nodup_nil, ?_, hsink, ?_⟩
  · intro s
    rw [a2 s]
    constructor
    · rintro (h | ⟨r, hr, hs⟩)
      · simp [NewSubdomainEnumerator] at h
      · cases r with
        | ok subs => exact ⟨subs, hr, hs⟩
        | err e => simp [FetchResult.subdomains] at hs
        | panicked => simp [FetchResult.subdomains] at hs
    · rintro ⟨subs, hr, hs⟩
      exact Or.inr ⟨_, hr, hs⟩
  · rw [hsink]
    generalize (NewSubdomainEnumerator sourceConfigurations proxies).outcomes w sched domain = rs
    induction rs with
    | nil => rfl
    | cons r rs ih =>
      cases r with
      | ok subs => simpa [List.filterMap_cons, FetchResult.error?, List.countP_cons] using ih
      | err e => simpa [List.filterMap_cons, FetchResult.error?, List.countP_cons] using ih
      | panicked => simpa [List.filterMap_cons, FetchResult.error?, List.countP_cons] using ih

/-- The end-to-end scenario of two sources, the first failing all its three
attempts and the second answering with one record: the call succeeds, returns
only the subdomain of the second source, and the channel received exactly one error. -/
theorem Enumerate_one_failing_one_succeeding :
    ((NewSubdomainEnumerator twoSources mainPool).Enumerate worldFailThenA
        (Order.id _) (Order.id _) "example.com").1 = .ok ["a.example.com"] ∧
    ((NewSubdomainEnumerator twoSources mainPool).Enumerate worldFailThenA
        (Order.id _) (Order.id _) "example.com").2.errorHandling
      = [.errorString "request failed after 3 attempts"] ∧
    ((NewSubdomainEnumerator twoSources mainPool).Enumerate worldFailThenA
        (Order.rev _) (Order.id _) "example.com").1 = .ok ["a.example.com"] := by
  refine ⟨by decide, by decide, by decide⟩

end UFOScanner
